import Mathlib

/-!
Verification development for the simulation core of
`Fish-Goes-Fish-Go-Fish-Fishing` (file `src/main.py`): the ocean
mass-spring wave field, the boid flocking simulation and the camera
transforms.  Python floats are modelled as exact numbers (`ℚ` for the
ocean and camera, `ℝ` for the flock, whose speed clamp takes a square
root); Python ints as `ℤ`; the `dict[int, WaterSpring]` as an
association list.
-/

namespace FishSim

/-! ### Scalar helpers (main.py, `lerp` and `clamp`) -/

/-- Model of `lerp(start, end, a)` (main.py line 58). -/
def lerp (start stop a : ℚ) : ℚ := (1 - a) * start + a * stop

/-- Model of `clamp(value, min, max)` (main.py line 67). -/
def clamp (value lo hi : ℚ) : ℚ :=
  if value < lo then lo else if value > hi then hi else value

/-! ### WaterSpring (main.py lines 420-436) -/

/-- Model of the `WaterSpring` sprite: its mutable numeric state and constants.
`origin` and image data are rendering-only and omitted. -/
structure WaterSpring where
  extension : ℚ
  velocity : ℚ
  spring_constant : ℚ
  dampening : ℚ
  deriving DecidableEq, Repr

/-- Model of `WaterSpring.update` (main.py lines 433-436):
`force = -extension*k - velocity*d; velocity += force; extension += velocity`. -/
def WaterSpring.update (s : WaterSpring) : WaterSpring :=
  let force := -s.extension * s.spring_constant - s.velocity * s.dampening
  let v := s.velocity + force
  { s with velocity := v, extension := s.extension + v }

/-- The spring constructed by `Ocean.add_spring` (main.py line 544):
`WaterSpring(manager, (position, 0), 0.015, 0.03)`. -/
def newSpring : WaterSpring :=
  { extension := 0, velocity := 0, spring_constant := 15/1000, dampening := 3/100 }

/-! ### The spring dictionary `Ocean.springs : dict[int, WaterSpring]` -/

/-- The `Ocean.springs` dictionary, as an association list from sample
position to spring. -/
abbrev SpringMap := List (ℤ × WaterSpring)

/-- The key set of the dictionary. -/
def keys (s : SpringMap) : List ℤ := s.map (·.1)

/-- Model of `Ocean.add_spring` (main.py lines 543-546): dictionary
assignment `springs[position] = WaterSpring(...)` (overwrite if present). -/
def addSpring (s : SpringMap) (position : ℤ) : SpringMap :=
  (position, newSpring) :: s.filter (fun p => p.1 != position)

/-- Model of `Ocean.remove_spring` (main.py lines 548-551):
`springs[position]` raises `KeyError` when absent (`none`), else the key is
deleted. -/
def removeSpring (s : SpringMap) (position : ℤ) : Option SpringMap :=
  match s.lookup position with
  | none => none
  | some _ => some (s.filter (fun p => p.1 != position))

/-- Adding `dv` to the velocity of the spring stored at key `i`
(the in-place `spring.velocity += velocity` of `Ocean.splash`). -/
def bumpVelocity (s : SpringMap) (i : ℤ) (dv : ℚ) : SpringMap :=
  s.map (fun p => if p.1 = i then (p.1, { p.2 with velocity := p.2.velocity + dv }) else p)

/-! ### Ocean constants (main.py lines 524-526) -/

/-- Constant `self.wave_interval = 8`. -/
def wave_interval : ℤ := 8

/-- Constant `self.spread = 0.1 / self.wave_interval`. -/
def spread : ℚ := (1/10) / 8

/-! ### `Ocean.splash` (main.py lines 575-582) -/

/-- The impulse centre `int(position // wave_interval * wave_interval)`:
Python float floor-division, times 8 (the multiplication keeps the value
integral, so the final `int(...)` conversion is exact). -/
def splashCenter (position : ℚ) : ℤ := ⌊position / 8⌋ * 8

/-- The `for i in range(oi - size*8, oi + size*8, 8)` loop body of
`Ocean.splash`: bump the spring at `i` (if live) by the triangular kernel,
then continue at `i + 8`. -/
def splashLoop (s : SpringMap) (oi i stop : ℤ) (speed : ℚ) (size : ℤ) : SpringMap :=
  if i < stop then
    match s.lookup i with
    | none => splashLoop s oi (i + 8) stop speed size
    | some _ =>
      splashLoop (bumpVelocity s i (lerp speed 0 (|(oi - i : ℤ)| / ((size : ℚ) * 8))))
        oi (i + 8) stop speed size
  else s
termination_by (stop - i).toNat
decreasing_by all_goals omega

/-- Model of `Ocean.splash(position, speed, size = 4)` (main.py lines 575-582). -/
def splash (s : SpringMap) (position speed : ℚ) (size : ℤ) : SpringMap :=
  let oi := splashCenter position
  splashLoop s oi (oi - size * 8) (oi + size * 8) speed size

/-! ### `Ocean.add_more_springs` (main.py lines 553-573)

The four `while` loops, with the tracked edge variables `left_most_point` /
`right_most_point`.  `px` is `self.player.rect.centerx` and `w` is
`self.manager.screen_size.x` (both Python floats). -/

/-- First loop: `while left_most > px - w: add_spring(left_most - 8)`. -/
def growLeft (s : SpringMap) (l : ℤ) (b : ℚ) : SpringMap × ℤ :=
  if b < (l : ℚ) then growLeft (addSpring s (l - 8)) (l - 8) b
  else (s, l)
termination_by (⌈(l : ℚ) - b⌉).toNat
decreasing_by
  have h1 : (0 : ℤ) < ⌈(l : ℚ) - b⌉ := by
    rw [Int.lt_ceil]; push_cast; linarith
  have h2 : ⌈((l - 8 : ℤ) : ℚ) - b⌉ = ⌈(l : ℚ) - b⌉ - 8 := by
    push_cast
    rw [show (l : ℚ) - 8 - b = ((l : ℚ) - b) + (-8 : ℤ) by push_cast; ring,
      Int.ceil_add_int]
    omega
  omega

/-- Second loop: `while left_most < px - w: remove_spring(left_most); left_most += 8`
(`none` models the `KeyError` raised by `remove_spring` on an absent key). -/
def trimLeft (s : SpringMap) (l : ℤ) (b : ℚ) : Option (SpringMap × ℤ) :=
  if (l : ℚ) < b then
    match removeSpring s l with
    | none => none
    | some s' => trimLeft s' (l + 8) b
  else some (s, l)
termination_by (⌈b - (l : ℚ)⌉).toNat
decreasing_by
  have h1 : (0 : ℤ) < ⌈b - (l : ℚ)⌉ := by
    rw [Int.lt_ceil]; push_cast; linarith
  have h2 : ⌈b - ((l + 8 : ℤ) : ℚ)⌉ = ⌈b - (l : ℚ)⌉ - 8 := by
    push_cast
    rw [show b - ((l : ℚ) + 8) = (b - (l : ℚ)) + (-8 : ℤ) by push_cast; ring,
      Int.ceil_add_int]
    omega
  omega

/-- Third loop: `while right_most < px + w: add_spring(right_most + 8)`. -/
def growRight (s : SpringMap) (r : ℤ) (b : ℚ) : SpringMap × ℤ :=
  if (r : ℚ) < b then growRight (addSpring s (r + 8)) (r + 8) b
  else (s, r)
termination_by (⌈b - (r : ℚ)⌉).toNat
decreasing_by
  have h1 : (0 : ℤ) < ⌈b - (r : ℚ)⌉ := by
    rw [Int.lt_ceil]; push_cast; linarith
  have h2 : ⌈b - ((r + 8 : ℤ) : ℚ)⌉ = ⌈b - (r : ℚ)⌉ - 8 := by
    push_cast
    rw [show b - ((r : ℚ) + 8) = (b - (r : ℚ)) + (-8 : ℤ) by push_cast; ring,
      Int.ceil_add_int]
    omega
  omega

/-- Fourth loop: `while right_most > px + w: remove_spring(right_most); right_most -= 8`. -/
def trimRight (s : SpringMap) (r : ℤ) (b : ℚ) : Option (SpringMap × ℤ) :=
  if b < (r : ℚ) then
    match removeSpring s r with
    | none => none
    | some s' => trimRight s' (r - 8) b
  else some (s, r)
termination_by (⌈(r : ℚ) - b⌉).toNat
decreasing_by
  have h1 : (0 : ℤ) < ⌈(r : ℚ) - b⌉ := by
    rw [Int.lt_ceil]; push_cast; linarith
  have h2 : ⌈((r - 8 : ℤ) : ℚ) - b⌉ = ⌈(r : ℚ) - b⌉ - 8 := by
    push_cast
    rw [show (r : ℚ) - 8 - b = ((r : ℚ) - b) + (-8 : ℤ) by push_cast; ring,
      Int.ceil_add_int]
    omega
  omega

/-- Model of `Ocean.add_more_springs` (main.py lines 553-573).  `none` models
an uncaught exception: the `ValueError` of `min`/`max` on an empty dict, or
the `KeyError` of `remove_spring` inside a trimming loop. -/
def add_more_springs (s : SpringMap) (px w : ℚ) : Option SpringMap :=
  match (keys s).min?, (keys s).max? with
  | some l0, some r0 =>
    let g1 := growLeft s l0 (px - w)
    match trimLeft g1.1 g1.2 (px - w) with
    | none => none
    | some (s2, _) =>
      let g3 := growRight s2 r0 (px + w)
      match trimRight g3.1 g3.2 (px + w) with
      | none => none
      | some (s4, _) => some s4
  | _, _ => none

/-! ### Flocking simulation (main.py lines 27-51 and 646-761)

Positions and velocities are real 2-vectors (`ℝ × ℝ`); the speed clamp
`Vector2.clamp_magnitude_ip` divides by a euclidean length, so this part of
the model lives in `ℝ`. -/

noncomputable section
open Classical

/-- Constant `LAYER_HEIGHT = 1440` (main.py line 28). -/
def LAYER_HEIGHT : ℝ := 1440

/-- Constant `WORLD_LEFT = 0` (main.py line 33). -/
def WORLD_LEFT : ℝ := 0

/-- Constant `WORLD_RIGHT = LAYER_HEIGHT * 10` (main.py line 34). -/
def WORLD_RIGHT : ℝ := LAYER_HEIGHT * 10

/-- Constant `WORLD_BOTTOM = LAYER_HEIGHT * 5` (main.py line 35). -/
def WORLD_BOTTOM : ℝ := LAYER_HEIGHT * 5

/-- Constant `FISH_SIM_CENTER_FACTOR = 0.003` (main.py line 43). -/
def FISH_SIM_CENTER_FACTOR : ℝ := 3/1000

/-- Constant `FISH_SIM_AVOID_FACTOR = 0.005` (main.py line 44). -/
def FISH_SIM_AVOID_FACTOR : ℝ := 5/1000

/-- Constant `FISH_SIM_MATCH_FACTOR = 0.04` (main.py line 45). -/
def FISH_SIM_MATCH_FACTOR : ℝ := 4/100

/-- Constant `FISH_SIM_TURN_FACTOR = 0.9` (main.py line 46). -/
def FISH_SIM_TURN_FACTOR : ℝ := 9/10

/-- Constant `FISH_SIM_AVOID_PLAYER_FACTOR = 0.05` (main.py line 47). -/
def FISH_SIM_AVOID_PLAYER_FACTOR : ℝ := 5/100

/-- Constant `FISH_SIM_AVOID_DIST = 35 * 35` (main.py line 49). -/
def FISH_SIM_AVOID_DIST : ℝ := 35 * 35

/-- Constant `FISH_SIM_AVOID_PLAYER_DIST = 100 * 100` (main.py line 50). -/
def FISH_SIM_AVOID_PLAYER_DIST : ℝ := 100 * 100

/-- Constant `FISH_SIM_VISION_DIST = 500 * 500` (main.py line 51). -/
def FISH_SIM_VISION_DIST : ℝ := 500 * 500

/-- Model of `pygame.Vector2.magnitude_squared()`. -/
def mag2 (v : ℝ × ℝ) : ℝ := v.1 ^ 2 + v.2 ^ 2

/-- A `pygame.Rect`/`FRect`: stored as topleft plus size. -/
structure Rect where
  x : ℝ
  y : ℝ
  w : ℝ
  h : ℝ

/-- Accessor `rect.right = rect.x + rect.w`. -/
def Rect.right (r : Rect) : ℝ := r.x + r.w

/-- Accessor `rect.bottom = rect.y + rect.h`. -/
def Rect.bottom (r : Rect) : ℝ := r.y + r.h

/-- Accessor `rect.center`. -/
def Rect.center (r : Rect) : ℝ × ℝ := (r.x + r.w / 2, r.y + r.h / 2)

/-- Model of a `FishBoid` sprite (main.py lines 646-658): its rect, velocity
and per-species bounding rect.  `bid` models Python object identity (the
`boid == self` test in `avoid_others` is identity comparison on sprites);
distinct live sprites have distinct `bid`s.  The sprite image is not
modelled, so the rect keeps a fixed size through a step (in the source the
rect is re-created around the same centre with the rotated image's size,
a rendering detail). -/
structure FishBoid where
  bid : ℕ
  rect : Rect
  velocity : ℝ × ℝ
  bounds : Rect

/-- Constant `self.speed_limit = 10` (main.py line 652). -/
def speed_limit : ℝ := 10

/-- Model of `FishBoid.go_towards_center` (main.py lines 660-669). -/
def go_towards_center (self : FishBoid) (boids : List FishBoid) : FishBoid :=
  let n := boids.length
  if n = 0 then self
  else
    let avg := ((n : ℝ)⁻¹) • boids.foldl (fun acc b => acc + b.rect.center) (0, 0)
    { self with velocity := self.velocity + FISH_SIM_CENTER_FACTOR • (avg - self.rect.center) }

/-- Model of `FishBoid.avoid_others` (main.py lines 671-678): accumulate a
repulsion from every *other* boid closer than `FISH_SIM_AVOID_DIST`
(squared), then `velocity += dv * FISH_SIM_AVOID_FACTOR`. -/
def avoid_others (self : FishBoid) (boids : List FishBoid) : FishBoid :=
  let dv := boids.foldl
    (fun acc b =>
      if b.bid = self.bid then acc
      else if mag2 (b.rect.center - self.rect.center) < FISH_SIM_AVOID_DIST then
        acc + (self.rect.center - b.rect.center)
      else acc) (0, 0)
  { self with velocity := self.velocity + FISH_SIM_AVOID_FACTOR • dv }

/-- Model of `FishBoid.match_velocity` (main.py lines 680-689). -/
def match_velocity (self : FishBoid) (boids : List FishBoid) : FishBoid :=
  let n := boids.length
  if n = 0 then self
  else
    let avg := ((n : ℝ)⁻¹) • boids.foldl (fun acc b => acc + b.velocity) (0, 0)
    { self with velocity := self.velocity + FISH_SIM_MATCH_FACTOR • (avg - self.velocity) }

/-- Model of `FishBoid.avoid_player` (main.py lines 708-711). -/
def avoid_player (self : FishBoid) (player : ℝ × ℝ) : FishBoid :=
  let dv := player - self.rect.center
  if mag2 dv < FISH_SIM_AVOID_PLAYER_DIST then
    { self with velocity := self.velocity + FISH_SIM_AVOID_PLAYER_FACTOR • (-dv) }
  else self

/-- Model of `pygame.Vector2.clamp_magnitude_ip(m)`: if the magnitude
exceeds `m`, rescale the vector to magnitude `m`. -/
def clampMagnitude (v : ℝ × ℝ) (m : ℝ) : ℝ × ℝ :=
  if mag2 v ≤ m ^ 2 then v else (m / Real.sqrt (mag2 v)) • v

/-- Model of `FishBoid.keep_within_bounds` (main.py lines 691-706): four
soft turn-factor velocity nudges against the species' `bounds` rect, then
hard position clamps against `WORLD_LEFT`/`WORLD_RIGHT`/`WORLD_BOTTOM`
(there is no clamp on the top side). -/
def keep_within_bounds (b : FishBoid) : FishBoid :=
  let v := b.velocity
  let v := if b.rect.x < b.bounds.x then (v.1 + FISH_SIM_TURN_FACTOR, v.2) else v
  let v := if b.bounds.right < b.rect.right then (v.1 - FISH_SIM_TURN_FACTOR, v.2) else v
  let v := if b.rect.y < b.bounds.y then (v.1, v.2 + FISH_SIM_TURN_FACTOR) else v
  let v := if b.bounds.bottom < b.rect.bottom then (v.1, v.2 - FISH_SIM_TURN_FACTOR) else v
  let r := b.rect
  let r := if r.x < WORLD_LEFT then { r with x := WORLD_LEFT } else r
  let r := if WORLD_RIGHT < r.right then { r with x := WORLD_RIGHT - r.w } else r
  let r := if WORLD_BOTTOM < r.bottom then { r with y := WORLD_BOTTOM - r.h } else r
  { b with velocity := v, rect := r }

/-- The force-accumulation phase of `FishBoid.update` (main.py lines
714-717), in source order. -/
def forcesPhase (self : FishBoid) (boids : List FishBoid) (player : ℝ × ℝ) : FishBoid :=
  avoid_player (match_velocity (avoid_others (go_towards_center self boids) boids) boids) player

/-- Model of `FishBoid.update` (main.py lines 713-730): forces, speed clamp,
position integration (`rect.topleft += velocity`), then
`keep_within_bounds`.  The sprite-rotation block between integration and
`keep_within_bounds` only rebuilds the image and its rect around the same
centre and is not modelled. -/
def FishBoid.update (self : FishBoid) (boids : List FishBoid) (player : ℝ × ℝ) : FishBoid :=
  let f := forcesPhase self boids player
  let v := clampMagnitude f.velocity speed_limit
  let moved := { f with velocity := v,
                        rect := { f.rect with x := f.rect.x + v.1, y := f.rect.y + v.2 } }
  keep_within_bounds moved

/-- The neighbour list computed per boid by `BoidManager.update` (main.py
lines 757-761): all boids of the same species group whose squared distance
is below `FISH_SIM_VISION_DIST` (the comprehension does not exclude the
boid itself). -/
def visionNeighbours (boid : FishBoid) (group : List FishBoid) : List FishBoid :=
  group.filter (fun b => decide (mag2 (b.rect.center - boid.rect.center) < FISH_SIM_VISION_DIST))

end

/-! ### Camera (main.py lines 1158-1174), exact arithmetic over `ℚ` -/

/-- Model of `Camera.world_to_screen`: `coords - position + screen_size / 2`. -/
def world_to_screen (position screen_size coords : ℚ × ℚ) : ℚ × ℚ :=
  coords - position + (screen_size.1 / 2, screen_size.2 / 2)

/-- Model of `Camera.screen_to_world`: `coords + position - screen_size / 2`. -/
def screen_to_world (position screen_size coords : ℚ × ℚ) : ℚ × ℚ :=
  coords + position - (screen_size.1 / 2, screen_size.2 / 2)

/-! ### Support lemmas about the spring dictionary -/

lemma lookup_cons' (k a : ℤ) (b : WaterSpring) (t : SpringMap) :
    List.lookup k ((a, b) :: t) = if k = a then some b else List.lookup k t := by
  by_cases h : k = a
  · subst h; simp [List.lookup_cons]
  · rw [List.lookup_cons, if_neg h, show (k == a) = false from beq_eq_false_iff_ne.mpr h]

lemma lookup_eq_none_iff (s : SpringMap) (k : ℤ) : s.lookup k = none ↔ k ∉ keys s := by
  induction s with
  | nil => simp [keys]
  | cons p t ih =>
    obtain ⟨a, b⟩ := p
    rw [lookup_cons']
    by_cases h : k = a <;> simp [keys, h] at ih ⊢
    exact ih

lemma lookup_isSome_iff (s : SpringMap) (k : ℤ) : (s.lookup k).isSome ↔ k ∈ keys s := by
  rw [Option.isSome_iff_ne_none, ne_eq, lookup_eq_none_iff, not_not]

lemma mem_keys_filter_ne (s : SpringMap) (i k : ℤ) :
    k ∈ keys (s.filter (fun p => p.1 != i)) ↔ k ∈ keys s ∧ k ≠ i := by
  simp only [keys, List.mem_map, List.mem_filter, bne_iff_ne, ne_eq]
  constructor
  · rintro ⟨p, ⟨hp, hne⟩, rfl⟩
    exact ⟨⟨p, hp, rfl⟩, hne⟩
  · rintro ⟨⟨p, hp, rfl⟩, hne⟩
    exact ⟨p, ⟨hp, hne⟩, rfl⟩

lemma mem_keys_addSpring (s : SpringMap) (i k : ℤ) :
    k ∈ keys (addSpring s i) ↔ k = i ∨ k ∈ keys s := by
  simp only [addSpring, keys, List.map_cons, List.mem_cons]
  rw [show (List.map (·.1) (s.filter (fun p => p.1 != i))) = keys (s.filter (fun p => p.1 != i)) from rfl]
  constructor
  · rintro (h | h)
    · exact Or.inl h
    · exact Or.inr ((mem_keys_filter_ne s i k).1 h).1
  · rintro (rfl | h)
    · exact Or.inl rfl
    · by_cases hk : k = i
      · exact Or.inl hk
      · exact Or.inr ((mem_keys_filter_ne s i k).2 ⟨h, hk⟩)

lemma removeSpring_eq_none (s : SpringMap) (i : ℤ) (h : i ∉ keys s) :
    removeSpring s i = none := by
  unfold removeSpring
  rw [(lookup_eq_none_iff s i).2 h]

lemma removeSpring_spec (s : SpringMap) (i : ℤ) (h : i ∈ keys s) :
    ∃ s', removeSpring s i = some s' ∧ ∀ k, (k ∈ keys s' ↔ k ∈ keys s ∧ k ≠ i) := by
  have hs : (s.lookup i).isSome := (lookup_isSome_iff s i).2 h
  obtain ⟨v, hv⟩ := Option.isSome_iff_exists.1 hs
  refine ⟨s.filter (fun p => p.1 != i), ?_, fun k => mem_keys_filter_ne s i k⟩
  unfold removeSpring
  rw [hv]

/-! ### Characterisation of `splash` -/

lemma lookup_bumpVelocity (s : SpringMap) (i k : ℤ) (dv : ℚ) :
    (bumpVelocity s i dv).lookup k =
      if k = i then (s.lookup k).map (fun sp => { sp with velocity := sp.velocity + dv })
      else s.lookup k := by
  induction s with
  | nil => simp [bumpVelocity]
  | cons p t ih =>
    obtain ⟨a, b⟩ := p
    by_cases hai : a = i
    · rw [show bumpVelocity ((a, b) :: t) i dv =
            (a, { b with velocity := b.velocity + dv }) :: bumpVelocity t i dv by
          simp [bumpVelocity, hai]]
      rw [lookup_cons', lookup_cons']
      by_cases hk : k = a
      · rw [if_pos hk, if_pos hk, if_pos (hk.trans hai)]
        rfl
      · simp only [if_neg hk]; exact ih
    · rw [show bumpVelocity ((a, b) :: t) i dv = (a, b) :: bumpVelocity t i dv by
          simp [bumpVelocity, hai]]
      rw [lookup_cons', lookup_cons']
      by_cases hk : k = a
      · rw [if_pos hk, if_pos hk, if_neg (fun hki => hai (hk.symm.trans hki))]
      · simp only [if_neg hk]; exact ih

lemma keys_bumpVelocity (s : SpringMap) (i : ℤ) (dv : ℚ) :
    keys (bumpVelocity s i dv) = keys s := by
  unfold bumpVelocity keys
  rw [List.map_map]
  congr 1
  funext p
  by_cases h : p.1 = i <;> simp [h]

lemma bumpVelocity_not_mem (s : SpringMap) (i : ℤ) (dv : ℚ) (h : i ∉ keys s) :
    bumpVelocity s i dv = s := by
  unfold bumpVelocity
  conv_rhs => rw [← List.map_id s]
  apply List.map_congr_left
  intro p hp
  have : p.1 ≠ i := fun hc => h (hc ▸ List.mem_map_of_mem (·.1) hp)
  simp [this]

/-- The per-key effect of the `Ocean.splash` loop: a live spring at `k` is
bumped by the triangular kernel exactly when `k` is one of the visited
positions `i, i+8, …` below `stop`; everything else is untouched. -/
lemma splashLoop_lookup (s : SpringMap) (oi i stop : ℤ) (speed : ℚ) (size : ℤ) (k : ℤ) :
    (splashLoop s oi i stop speed size).lookup k =
      if i ≤ k ∧ k < stop ∧ (8 ∣ k - i) then
        (s.lookup k).map
          (fun sp => { sp with
            velocity := sp.velocity + lerp speed 0 (|(oi - k : ℤ)| / ((size : ℚ) * 8)) })
      else s.lookup k := by
  induction s, oi, i, stop, speed, size using splashLoop.induct with
  | case1 s oi i stop speed size hlt hl ih =>
    rw [splashLoop, if_pos hlt, hl]
    rw [ih]
    by_cases hk : k = i
    · subst hk
      rw [if_neg (by omega), if_pos ⟨le_refl k, hlt, by simp⟩, hl]
      rfl
    · by_cases hc : i ≤ k ∧ k < stop ∧ (8:ℤ) ∣ k - i
      · rw [if_pos (by omega : i + 8 ≤ k ∧ k < stop ∧ (8:ℤ) ∣ k - (i + 8)), if_pos hc]
      · rw [if_neg (by omega : ¬(i + 8 ≤ k ∧ k < stop ∧ (8:ℤ) ∣ k - (i + 8))), if_neg hc]
  | case2 s oi i stop speed size hlt sp hl ih =>
    rw [splashLoop, if_pos hlt, hl]
    rw [ih, lookup_bumpVelocity]
    by_cases hk : k = i
    · subst hk
      rw [if_neg (by omega), if_pos rfl, if_pos ⟨le_refl k, hlt, by simp⟩, hl]
    · rw [if_neg hk]
      by_cases hc : i ≤ k ∧ k < stop ∧ (8:ℤ) ∣ k - i
      · rw [if_pos (by omega : i + 8 ≤ k ∧ k < stop ∧ (8:ℤ) ∣ k - (i + 8)), if_pos hc]
      · rw [if_neg (by omega : ¬(i + 8 ≤ k ∧ k < stop ∧ (8:ℤ) ∣ k - (i + 8))), if_neg hc]
  | case3 s oi i stop speed size hlt =>
    rw [splashLoop, if_neg hlt, if_neg (by omega)]

/-- The `Ocean.splash` loop leaves the dictionary bit-for-bit unchanged when
no live key lies in the visited range. -/
lemma splashLoop_eq_self (s : SpringMap) (oi i stop : ℤ) (speed : ℚ) (size : ℤ)
    (h : ∀ k ∈ keys s, k < i ∨ stop ≤ k) :
    splashLoop s oi i stop speed size = s := by
  induction s, oi, i, stop, speed, size using splashLoop.induct with
  | case1 s oi i stop speed size hlt hl ih =>
    rw [splashLoop, if_pos hlt, hl]
    exact ih (fun k hk => by rcases h k hk with h' | h' <;> omega)
  | case2 s oi i stop speed size hlt sp hl ih =>
    exfalso
    have hi : i ∈ keys s := by
      have : (s.lookup i).isSome := by rw [hl]; rfl
      exact (lookup_isSome_iff s i).1 this
    rcases h i hi with h' | h' <;> omega
  | case3 s oi i stop speed size hlt =>
    rw [splashLoop, if_neg hlt]

/-! ### C4 — triangular splash kernel -/

/-- C4: `Ocean.splash(position, speed, size)` changes the velocity of a live
spring `d` samples from the impulse centre (on either side, `0 ≤ d ≤ size`)
by exactly `lerp(speed, 0, d/size)`: `+speed` at the centre, `+speed/2` at
`d = size/2`, and a net change of `0` at exactly `size` samples away; the
extension is untouched. -/
theorem splash_triangular_kernel (s : SpringMap) (p speed : ℚ) (size d : ℤ)
    (hsz : 0 < size) (hd0 : 0 ≤ d) (hds : d ≤ size) (k : ℤ)
    (hk : k = splashCenter p + d * 8 ∨ k = splashCenter p - d * 8)
    (sp : WaterSpring) (hsp : s.lookup k = some sp) :
    (splash s p speed size).lookup k =
      some { sp with velocity := sp.velocity + lerp speed 0 ((d : ℚ) / (size : ℚ)) } := by
  have hszq : ((size : ℚ)) ≠ 0 := Int.cast_ne_zero.2 (by omega)
  have hratio : ((|(-(d * 8) : ℤ)| : ℤ) : ℚ) / ((size : ℚ) * 8) = (d : ℚ) / (size : ℚ) := by
    rw [abs_neg, abs_of_nonneg (by omega : (0:ℤ) ≤ d * 8)]
    push_cast
    field_simp
    ring
  unfold splash
  rw [splashLoop_lookup]
  rcases hk with hk | hk
  · by_cases hdlt : d < size
    · rw [if_pos ⟨by omega, by omega, ⟨d + size, by omega⟩⟩, hsp]
      have : splashCenter p - k = -(d * 8) := by omega
      rw [this, hratio]
      rfl
    · have hde : d = size := le_antisymm hds (not_lt.1 hdlt)
      rw [if_neg (by omega), hsp]
      subst hde
      rw [show ((d : ℚ) / (d : ℚ)) = 1 from div_self hszq]
      simp [lerp]
  · rw [if_pos ⟨by omega, by omega, ⟨size - d, by omega⟩⟩, hsp]
    have : splashCenter p - k = d * 8 := by omega
    rw [this, show |(d * 8 : ℤ)| = |(-(d * 8) : ℤ)| from (abs_neg _).symm, hratio]
    rfl

/-- Witness to C4 at a concrete midpoint input: two live springs at 0 and 16,
impulse at position 1 (centre 0), `speed = 10`, `size = 4`; the spring two
samples away receives `lerp(10, 0, 2/4) = 5`. -/
theorem splash_triangular_kernel_witness :
    (splash [((0:ℤ), newSpring), (16, newSpring)] 1 10 4).lookup 16 =
      some { newSpring with velocity := newSpring.velocity + lerp 10 0 ((2 : ℚ) / (4 : ℚ)) } :=
  splash_triangular_kernel _ 1 10 4 2 (by norm_num) (by norm_num) (by norm_num) 16
    (Or.inl (by norm_num [splashCenter]))
    newSpring (by rw [lookup_cons', lookup_cons']; norm_num)

/-! ### C9 — splash outside the live window is a silent no-op -/

/-- C9: when no live spring lies in the affected sample range, `Ocean.splash`
returns (raises no error and) leaves every live spring bit-for-bit
unchanged: the state is exactly the input state. -/
theorem splash_outside_window_noop (s : SpringMap) (p speed : ℚ) (size : ℤ)
    (h : ∀ k ∈ keys s, k < splashCenter p - size * 8 ∨ splashCenter p + size * 8 ≤ k) :
    splash s p speed size = s := by
  unfold splash
  exact splashLoop_eq_self _ _ _ _ _ _ h

/-- Witness to C9: a single live spring at 0, splashed at position 800. -/
theorem splash_outside_window_noop_witness :
    splash [((0:ℤ), newSpring)] 800 5 4 = [((0:ℤ), newSpring)] :=
  splash_outside_window_noop _ _ _ _ (by
    intro k hk
    simp [keys] at hk
    subst hk
    norm_num [splashCenter])

/-! ### C7 — impulse targeting: floor, not truncation toward zero -/

/-- Modelled from the spec's words for comparison (refinement check): a
centre that "rounds down toward zero on division" (truncation toward zero),
as claim C7 describes. -/
def specTruncCenter (position : ℚ) : ℤ :=
  (if 0 ≤ position then ⌊position / 8⌋ else ⌈position / 8⌉) * 8

/-- C7 counterexample: at position `-4`, `Ocean.splash` targets sample `-8`
(floor division, rounding toward negative infinity), not the sample `0`
that truncation toward zero would give. -/
theorem splash_center_floors_negative :
    splashCenter (-4) = -8 ∧ specTruncCenter (-4) = 0 ∧
      splashCenter (-4) ≠ specTruncCenter (-4) := by
  have h1 : splashCenter (-4) = -8 := by norm_num [splashCenter]
  have h2 : specTruncCenter (-4) = 0 := by norm_num [specTruncCenter]
  exact ⟨h1, h2, by rw [h1, h2]; norm_num⟩

/-- C7 amended: the impulse centre is `wave_interval * ⌊position / wave_interval⌋`
(floor, i.e. rounding toward negative infinity) — always an exact multiple of
`wave_interval`, never interpolated between two cells — and it agrees with
truncation toward zero only for non-negative positions. -/
theorem splash_center_is_floor_multiple (p : ℚ) :
    splashCenter p = 8 * ⌊p / 8⌋ ∧ (8 : ℤ) ∣ splashCenter p ∧
      (0 ≤ p → splashCenter p = specTruncCenter p) := by
  refine ⟨by rw [splashCenter]; ring, ⟨⌊p / 8⌋, by rw [splashCenter]; ring⟩, fun hp => ?_⟩
  rw [splashCenter, specTruncCenter, if_pos hp]

/-- Witness to the amended C7 at `p = 15`. -/
theorem splash_center_is_floor_multiple_witness :
    splashCenter 15 = 8 * ⌊(15 : ℚ) / 8⌋ ∧ (8 : ℤ) ∣ splashCenter 15 ∧
      splashCenter 15 = specTruncCenter 15 := by
  have h := splash_center_is_floor_multiple 15
  exact ⟨h.1, h.2.1, h.2.2 (by norm_num)⟩

/-! ### C5 — damped spring: energy decays geometrically, but the extension
magnitude is not monotone -/

/-- The quadratic energy `k·extension² + velocity²` of a spring with the
game's constants `k = 0.015`. -/
def springEnergy (s : WaterSpring) : ℚ := (15/1000) * s.extension ^ 2 + s.velocity ^ 2

/-- C5 counterexample: from extension 1 and velocity 0, with the game's
constants, `|extension|` grows from step 13 to step 14 (the damped
oscillator crosses zero and swings to the other side), so it does not
strictly decrease on every `update`. -/
theorem spring_abs_extension_not_monotone :
    |((WaterSpring.update)^[13]
        { extension := 1, velocity := 0, spring_constant := 15/1000, dampening := 3/100 }).extension| <
    |((WaterSpring.update)^[14]
        { extension := 1, velocity := 0, spring_constant := 15/1000, dampening := 3/100 }).extension| := by
  norm_num [Function.iterate_succ_apply', WaterSpring.update, abs]

/-- C5 amended: for the game's constants the iteration is stable — the
energy `k·e² + v²` contracts by a factor `≤ 99/100` on every `update`, and
consequently, from any start `(e₀, 0)`, `|extension|` eventually stays below
any positive bound (it converges to 0) — though not monotonically. -/
theorem spring_energy_decay_extension_tendsto_zero :
    (∀ s : WaterSpring, s.spring_constant = 15/1000 → s.dampening = 3/100 →
        springEnergy (WaterSpring.update s) ≤ (99/100) * springEnergy s) ∧
    (∀ e0 : ℚ, e0 ≠ 0 → ∀ ε : ℚ, 0 < ε → ∃ N : ℕ, ∀ n ≥ N,
        |((WaterSpring.update)^[n]
            { extension := e0, velocity := 0, spring_constant := 15/1000,
              dampening := 3/100 }).extension| < ε) := by
  have hdecay : ∀ s : WaterSpring, s.spring_constant = 15/1000 → s.dampening = 3/100 →
      springEnergy (WaterSpring.update s) ≤ (99/100) * springEnergy s := by
    intro s h1 h2
    obtain ⟨e, v, sk, sd⟩ := s
    simp only at h1 h2
    subst h1; subst h2
    simp only [WaterSpring.update, springEnergy]
    nlinarith [sq_nonneg (573 * e + 1746 * v), sq_nonneg v, sq_nonneg e]
  refine ⟨hdecay, fun e0 he0 ε hε => ?_⟩
  set s0 : WaterSpring :=
    { extension := e0, velocity := 0, spring_constant := 15/1000, dampening := 3/100 } with hs0
  have hconst : ∀ n : ℕ, ((WaterSpring.update)^[n] s0).spring_constant = 15/1000 ∧
      ((WaterSpring.update)^[n] s0).dampening = 3/100 := by
    intro n
    induction n with
    | zero => simp [hs0]
    | succ n ih =>
      rw [Function.iterate_succ_apply']
      exact ⟨by rw [WaterSpring.update]; exact ih.1, by rw [WaterSpring.update]; exact ih.2⟩
  have hgeo : ∀ n : ℕ, springEnergy ((WaterSpring.update)^[n] s0) ≤
      (99/100) ^ n * springEnergy s0 := by
    intro n
    induction n with
    | zero => simp
    | succ n ih =>
      rw [Function.iterate_succ_apply']
      calc springEnergy (WaterSpring.update ((WaterSpring.update)^[n] s0)) ≤
            (99/100) * springEnergy ((WaterSpring.update)^[n] s0) :=
              hdecay _ (hconst n).1 (hconst n).2
        _ ≤ (99/100) * ((99/100) ^ n * springEnergy s0) := by
              have h9 : (0:ℚ) ≤ 99/100 := by norm_num
              exact mul_le_mul_of_nonneg_left ih h9
        _ = (99/100) ^ (n + 1) * springEnergy s0 := by ring
  have hE0 : 0 < springEnergy s0 := by
    have h2 : (0:ℚ) < e0 ^ 2 := (sq_nonneg e0).lt_of_ne (Ne.symm (pow_ne_zero 2 he0))
    simp only [springEnergy, hs0]
    nlinarith
  obtain ⟨N, hN⟩ := exists_pow_lt_of_lt_one
    (show (0:ℚ) < (15/1000) * ε ^ 2 / springEnergy s0 by positivity)
    (show (99/100 : ℚ) < 1 by norm_num)
  refine ⟨N, fun n hn => ?_⟩
  have h1 : springEnergy ((WaterSpring.update)^[n] s0) < (15/1000) * ε ^ 2 := by
    calc springEnergy ((WaterSpring.update)^[n] s0) ≤ (99/100) ^ n * springEnergy s0 := hgeo n
      _ ≤ (99/100) ^ N * springEnergy s0 := by
          exact mul_le_mul_of_nonneg_right
            (pow_le_pow_of_le_one (by norm_num) (by norm_num) hn) (le_of_lt hE0)
      _ < ((15/1000) * ε ^ 2 / springEnergy s0) * springEnergy s0 :=
          (mul_lt_mul_of_pos_right hN hE0)
      _ = (15/1000) * ε ^ 2 := div_mul_cancel₀ _ (ne_of_gt hE0)
  have h2 : ((WaterSpring.update)^[n] s0).extension ^ 2 < ε ^ 2 := by
    have hv : 0 ≤ ((WaterSpring.update)^[n] s0).velocity ^ 2 := sq_nonneg _
    have := h1
    rw [springEnergy] at this
    nlinarith
  exact abs_lt_of_sq_lt_sq h2 (le_of_lt hε)

/-- Witness to the amended C5: one energy-decay step at a concrete spring,
and the convergence statement instantiated at `e₀ = 1`, `ε = 1/10`. -/
theorem spring_energy_decay_witness :
    springEnergy (WaterSpring.update
        { extension := 2, velocity := 3, spring_constant := 15/1000, dampening := 3/100 }) ≤
      (99/100) * springEnergy
        { extension := 2, velocity := 3, spring_constant := 15/1000, dampening := 3/100 } ∧
    ∃ N : ℕ, ∀ n ≥ N,
      |((WaterSpring.update)^[n]
          { extension := 1, velocity := 0, spring_constant := 15/1000,
            dampening := 3/100 }).extension| < 1/10 :=
  ⟨spring_energy_decay_extension_tendsto_zero.1 _ rfl rfl,
   spring_energy_decay_extension_tendsto_zero.2 1 one_ne_zero (1/10) (by norm_num)⟩

/-! ### The contiguous-window invariant of the spring dictionary -/

/-- The live keys are exactly the 8-step arithmetic progression from `lo` to
`hi` (empty when `hi < lo`, which the loops pass through as `lo = hi + 8`). -/
def isRange (s : SpringMap) (lo hi : ℤ) : Prop :=
  ∀ k : ℤ, k ∈ keys s ↔ (lo ≤ k ∧ k ≤ hi ∧ 8 ∣ k - lo)

lemma isRange_addSpring_left (s : SpringMap) (lo hi : ℤ) (h : isRange s lo hi)
    (hle : lo ≤ hi + 8) : isRange (addSpring s (lo - 8)) (lo - 8) hi := by
  intro k
  rw [mem_keys_addSpring, h k]
  omega

lemma isRange_addSpring_right (s : SpringMap) (lo hi : ℤ) (h : isRange s lo hi)
    (hdvd : 8 ∣ hi - lo) (hle : lo ≤ hi + 8) :
    isRange (addSpring s (hi + 8)) lo (hi + 8) := by
  intro k
  rw [mem_keys_addSpring, h k]
  omega

lemma isRange_removeSpring_left (s : SpringMap) (lo hi : ℤ) (h : isRange s lo hi)
    (hlohi : lo ≤ hi) :
    ∃ s', removeSpring s lo = some s' ∧ isRange s' (lo + 8) hi := by
  obtain ⟨s', hs', hmem⟩ := removeSpring_spec s lo ((h lo).2 ⟨le_refl _, hlohi, by omega⟩)
  exact ⟨s', hs', fun k => by rw [hmem, h k]; omega⟩

lemma isRange_removeSpring_right (s : SpringMap) (lo hi : ℤ) (h : isRange s lo hi)
    (hlohi : lo ≤ hi) (hdvd : 8 ∣ hi - lo) :
    ∃ s', removeSpring s hi = some s' ∧ isRange s' lo (hi - 8) := by
  obtain ⟨s', hs', hmem⟩ := removeSpring_spec s hi ((h hi).2 ⟨hlohi, le_refl _, hdvd⟩)
  exact ⟨s', hs', fun k => by rw [hmem, h k]; omega⟩

lemma min_keys_of_isRange (s : SpringMap) (lo hi : ℤ) (h : isRange s lo hi)
    (hlohi : lo ≤ hi) : (keys s).min? = some lo := by
  rw [@List.min?_eq_some_iff ℤ lo _ _ ⟨fun h1 h2 => le_antisymm h1 h2⟩
    (fun a => le_refl a) (fun a b => min_choice a b) (fun a b c => le_min_iff)]
  exact ⟨(h lo).2 ⟨le_refl _, hlohi, by omega⟩, fun b hb => ((h b).1 hb).1⟩

lemma max_keys_of_isRange (s : SpringMap) (lo hi : ℤ) (h : isRange s lo hi)
    (hlohi : lo ≤ hi) (hdvd : 8 ∣ hi - lo) : (keys s).max? = some hi := by
  rw [@List.max?_eq_some_iff ℤ hi _ _ ⟨fun h1 h2 => le_antisymm h1 h2⟩
    (fun a => le_refl a) (fun a b => max_choice a b) (fun a b c => max_le_iff)]
  exact ⟨(h hi).2 ⟨hlohi, le_refl _, hdvd⟩, fun b hb => ((h b).1 hb).2.1⟩

/-! ### Specifications of the four window loops -/

lemma growLeft_spec (s : SpringMap) (lo hi : ℤ) (b : ℚ)
    (hr : isRange s lo hi) (hdvd : 8 ∣ hi - lo) (hle : lo ≤ hi + 8) :
    ∃ s1 l1, growLeft s lo b = (s1, l1) ∧ isRange s1 l1 hi ∧ 8 ∣ hi - l1 ∧
      l1 ≤ lo ∧ (l1 : ℚ) ≤ b ∧ (b - 8 < (l1 : ℚ) ∨ l1 = lo) := by
  induction s, lo, b using growLeft.induct with
  | case1 s l b hlt ih =>
    obtain ⟨s1, l1, heq, h1, h2, h3, h4, h5⟩ :=
      ih (isRange_addSpring_left s l hi hr hle) (by omega) (by omega)
    refine ⟨s1, l1, ?_, h1, h2, by omega, h4, ?_⟩
    · rw [growLeft, if_pos hlt]
      exact heq
    · rcases h5 with h5 | h5
      · exact Or.inl h5
      · left
        rw [h5]
        push_cast
        linarith
  | case2 s l b hlt =>
    exact ⟨s, l, by rw [growLeft, if_neg hlt], hr, hdvd, le_refl _, by push_cast at hlt ⊢; linarith,
      Or.inr rfl⟩

lemma trimLeft_spec (s : SpringMap) (l hi : ℤ) (b : ℚ)
    (hr : isRange s l hi) (hdvd : 8 ∣ hi - l) (hlhi8 : l ≤ hi + 8) (hble : b ≤ (hi : ℚ) + 8) :
    ∃ s2 l2, trimLeft s l b = some (s2, l2) ∧ isRange s2 l2 hi ∧ 8 ∣ hi - l2 ∧
      l ≤ l2 ∧ l2 ≤ hi + 8 ∧ b ≤ (l2 : ℚ) ∧ ((l2 : ℚ) - 8 < b ∨ l2 = l) := by
  induction s, l, b using trimLeft.induct with
  | case1 s l b hlt hnone =>
    exfalso
    have hlhi : l ≤ hi := by
      have : (l : ℚ) < (hi : ℚ) + 8 := lt_of_lt_of_le hlt hble
      have : l < hi + 8 := by exact_mod_cast this
      omega
    obtain ⟨s', hs', _⟩ := isRange_removeSpring_left s l hi hr hlhi
    rw [hs'] at hnone
    cases hnone
  | case2 s l b hlt s' hrs ih =>
    have hlhi : l ≤ hi := by
      have : (l : ℚ) < (hi : ℚ) + 8 := lt_of_lt_of_le hlt hble
      have : l < hi + 8 := by exact_mod_cast this
      omega
    obtain ⟨s'', hs'', hr'⟩ := isRange_removeSpring_left s l hi hr hlhi
    rw [hrs] at hs''
    injection hs'' with hs''
    subst hs''
    obtain ⟨s2, l2, heq, h1, h2, h3, h4, h5, h6⟩ := ih hr' (by omega) (by omega) hble
    refine ⟨s2, l2, ?_, h1, h2, by omega, h4, h5, ?_⟩
    · rw [trimLeft, if_pos hlt, hrs]
      exact heq
    · rcases h6 with h6 | h6
      · exact Or.inl h6
      · left
        rw [h6]
        push_cast
        linarith
  | case3 s l b hlt =>
    push_neg at hlt
    exact ⟨s, l, by rw [trimLeft, if_neg (not_lt.2 hlt)], hr, hdvd, le_refl _, hlhi8, hlt,
      Or.inr rfl⟩

lemma growRight_spec (s : SpringMap) (lo r : ℤ) (b : ℚ)
    (hr : isRange s lo r) (hdvd : 8 ∣ r - lo) (hle : lo ≤ r + 8) :
    ∃ s3 r3, growRight s r b = (s3, r3) ∧ isRange s3 lo r3 ∧ 8 ∣ r3 - lo ∧ lo ≤ r3 + 8 ∧
      r ≤ r3 ∧ b ≤ (r3 : ℚ) ∧ ((r3 : ℚ) - 8 < b ∨ r3 = r) := by
  induction s, r, b using growRight.induct with
  | case1 s r b hlt ih =>
    obtain ⟨s3, r3, heq, h1, h2, h3, h4, h5, h6⟩ :=
      ih (isRange_addSpring_right s lo r hr hdvd hle) (by omega) (by omega)
    refine ⟨s3, r3, ?_, h1, h2, h3, by omega, h5, ?_⟩
    · rw [growRight, if_pos hlt]
      exact heq
    · rcases h6 with h6 | h6
      · exact Or.inl h6
      · left
        rw [h6]
        push_cast
        linarith
  | case2 s r b hlt =>
    push_neg at hlt
    exact ⟨s, r, by rw [growRight, if_neg (not_lt.2 hlt)], hr, hdvd, hle, le_refl _, hlt,
      Or.inr rfl⟩

lemma trimRight_spec (s : SpringMap) (lo r : ℤ) (b : ℚ)
    (hr : isRange s lo r) (hdvd : 8 ∣ r - lo) (hle : lo ≤ r + 8) (hblo : (lo : ℚ) - 8 ≤ b) :
    ∃ s4 r4, trimRight s r b = some (s4, r4) ∧ isRange s4 lo r4 ∧ 8 ∣ r4 - lo ∧ lo ≤ r4 + 8 ∧
      r4 ≤ r ∧ (r4 : ℚ) ≤ b ∧ (b < (r4 : ℚ) + 8 ∨ r4 = r) := by
  induction s, r, b using trimRight.induct with
  | case1 s r b hlt hnone =>
    exfalso
    have hlor : lo ≤ r := by
      have : (lo : ℚ) - 8 < (r : ℚ) := lt_of_le_of_lt hblo hlt
      have : lo - 8 < r := by exact_mod_cast this
      omega
    obtain ⟨s', hs', _⟩ := isRange_removeSpring_right s lo r hr hlor hdvd
    rw [hs'] at hnone
    cases hnone
  | case2 s r b hlt s' hrs ih =>
    have hlor : lo ≤ r := by
      have : (lo : ℚ) - 8 < (r : ℚ) := lt_of_le_of_lt hblo hlt
      have : lo - 8 < r := by exact_mod_cast this
      omega
    obtain ⟨s'', hs'', hr'⟩ := isRange_removeSpring_right s lo r hr hlor hdvd
    rw [hrs] at hs''
    injection hs'' with hs''
    subst hs''
    obtain ⟨s4, r4, heq, h1, h2, h3, h4, h5, h6⟩ := ih hr' (by omega) (by omega) hblo
    refine ⟨s4, r4, ?_, h1, h2, h3, by omega, h5, ?_⟩
    · rw [trimRight, if_pos hlt, hrs]
      exact heq
    · rcases h6 with h6 | h6
      · exact Or.inl h6
      · left
        rw [h6]
        push_cast
        linarith
  | case3 s r b hlt =>
    push_neg at hlt
    exact ⟨s, r, by rw [trimRight, if_neg (not_lt.2 hlt)], hr, hdvd, hle, le_refl _, hlt,
      Or.inr rfl⟩

/-- Master lemma: from a contiguous nonempty window, whenever the new window
overlaps the old one on the right (`px - w ≤ hi + 8`) and the half-width is
at least half a sample (`4 ≤ w`), `add_more_springs` completes and rebuilds a
contiguous window whose left edge is the first grid point `≥ px - w` and
whose right edge the last grid point `≤ px + w`. -/
lemma add_more_springs_success (s : SpringMap) (lo hi : ℤ) (px w : ℚ)
    (hr : isRange s lo hi) (hdvd : 8 ∣ hi - lo) (hlohi : lo ≤ hi)
    (hw : 4 ≤ w) (hover : px - w ≤ (hi : ℚ) + 8) :
    ∃ s' lo' hi', add_more_springs s px w = some s' ∧ isRange s' lo' hi' ∧
      8 ∣ hi' - lo' ∧ 8 ∣ lo' - lo ∧ lo' ≤ hi' ∧
      px - w ≤ (lo' : ℚ) ∧ (lo' : ℚ) < px - w + 8 ∧
      (hi' : ℚ) ≤ px + w ∧ px + w < (hi' : ℚ) + 8 := by
  have hmin := min_keys_of_isRange s lo hi hr hlohi
  have hmax := max_keys_of_isRange s lo hi hr hlohi hdvd
  obtain ⟨s1, l1, hg1, hr1, hd1, hl1lo, hl1b, hl1low⟩ :=
    growLeft_spec s lo hi (px - w) hr hdvd (by omega)
  obtain ⟨s2, l2, ht1, hr2, hd2, hl1l2, hl2hi8, hbl2, hl2low⟩ :=
    trimLeft_spec s1 l1 hi (px - w) hr1 hd1 (by omega) hover
  have hl2upper : (l2 : ℚ) - 8 < px - w := by
    rcases hl2low with h | h
    · exact h
    · rw [h]; linarith
  obtain ⟨s3, r3, hg3, hr3, hd3, hle3, hhir3, hbr3, hr3low⟩ :=
    growRight_spec s2 l2 hi (px + w) hr2 hd2 hl2hi8
  have hblo4 : (l2 : ℚ) - 8 ≤ px + w := by linarith
  obtain ⟨s4, r4, ht4, hr4, hd4, hle4, hr4r3, hr4b, hr4low⟩ :=
    trimRight_spec s3 l2 r3 (px + w) hr3 hd3 hle3 hblo4
  have hr4upper : px + w < (r4 : ℚ) + 8 := by
    rcases hr4low with h | h
    · exact h
    · rw [h] at hr4b ⊢
      linarith
  have heq : add_more_springs s px w = some s4 := by
    simp only [add_more_springs, hmin, hmax, hg1, ht1, hg3, ht4]
  have hlo'hi' : l2 ≤ r4 := by
    have h1 : (l2 : ℚ) < (r4 : ℚ) + 8 := by linarith
    have h2 : l2 < r4 + 8 := by exact_mod_cast h1
    omega
  refine ⟨s4, l2, r4, heq, hr4, by omega, by omega, hlo'hi', by linarith, by linarith,
    hr4b, hr4upper⟩

/-! ### C3 — window coverage after `add_more_springs` -/

/-- C3: from a contiguous grid-aligned window state, when
`add_more_springs` completes for player position `px` and half-width `w`
(overlap `px - w ≤ hi + 8` is exactly what makes it complete; `4 ≤ w`, far
below the screen width used in the game), afterwards a live spring exists at
every multiple of `wave_interval` inside `[px-w, px+w]`, every live spring
lies inside `[px-w, px+w]` (hence none farther than one `wave_interval`
outside), and the live keys form a contiguous 8-step arithmetic
progression. -/
theorem add_more_springs_window_coverage (s : SpringMap) (lo hi : ℤ) (px w : ℚ)
    (hr : isRange s lo hi) (h8 : (8:ℤ) ∣ lo) (hdvd : 8 ∣ hi - lo) (hlohi : lo ≤ hi)
    (hw : 4 ≤ w) (hover : px - w ≤ (hi : ℚ) + 8) :
    ∃ s', add_more_springs s px w = some s' ∧
      (∀ k : ℤ, 8 ∣ k → px - w ≤ (k : ℚ) → (k : ℚ) ≤ px + w → k ∈ keys s') ∧
      (∀ k ∈ keys s', (8:ℤ) ∣ k ∧ px - w ≤ (k : ℚ) ∧ (k : ℚ) ≤ px + w) ∧
      (∃ lo' hi', lo' ≤ hi' ∧ isRange s' lo' hi') := by
  obtain ⟨s', lo', hi', heq, hr', hd', hdlo, hlh, hlow1, hlow2, hhigh1, hhigh2⟩ :=
    add_more_springs_success s lo hi px w hr hdvd hlohi hw hover
  have h8lo' : (8:ℤ) ∣ lo' := by omega
  have h8hi' : (8:ℤ) ∣ hi' := by omega
  refine ⟨s', heq, ?_, ?_, ⟨lo', hi', hlh, hr'⟩⟩
  · intro k hk8 hk1 hk2
    rw [hr' k]
    have hklo' : lo' ≤ k := by
      have hq : (lo' : ℚ) - 8 < (k : ℚ) := by linarith
      have : lo' - 8 < k := by exact_mod_cast hq
      omega
    have hkhi' : k ≤ hi' := by
      have hq : (k : ℚ) < (hi' : ℚ) + 8 := by linarith
      have : k < hi' + 8 := by exact_mod_cast hq
      omega
    exact ⟨hklo', hkhi', by omega⟩
  · intro k hk
    obtain ⟨ha, hb, hc⟩ := (hr' k).1 hk
    refine ⟨by omega, ?_, ?_⟩
    · calc px - w ≤ (lo' : ℚ) := hlow1
        _ ≤ (k : ℚ) := by exact_mod_cast ha
    · calc (k : ℚ) ≤ (hi' : ℚ) := by exact_mod_cast hb
        _ ≤ px + w := hhigh1

/-- Witness to C3: the initial single-spring state `{0}`, `px = 0`, `w = 4`. -/
theorem add_more_springs_window_coverage_witness :
    ∃ s', add_more_springs [((0:ℤ), newSpring)] 0 4 = some s' ∧
      (∀ k : ℤ, 8 ∣ k → (0:ℚ) - 4 ≤ (k : ℚ) → (k : ℚ) ≤ (0:ℚ) + 4 → k ∈ keys s') ∧
      (∀ k ∈ keys s', (8:ℤ) ∣ k ∧ (0:ℚ) - 4 ≤ (k : ℚ) ∧ (k : ℚ) ≤ (0:ℚ) + 4) ∧
      (∃ lo' hi', lo' ≤ hi' ∧ isRange s' lo' hi') :=
  add_more_springs_window_coverage [((0:ℤ), newSpring)] 0 0 0 4
    (fun k => by simp [keys]; omega) (by omega) (by omega) (le_refl 0)
    (by norm_num) (by norm_num)

/-! ### C8 — `add_more_springs` is total only under window overlap -/

/-- C8: from the reachable initial state (a single spring at 0), a
single-frame jump of the player to `x = 2000` with screen width 1280 makes
the left-trimming loop call `remove_spring` on the absent key 8 and raise
`KeyError` (modelled as `none`); and under the overlap precondition
`px - w ≤ hi + 8` (with `4 ≤ w`) the operation always completes. -/
theorem add_more_springs_keyerror_and_total :
    add_more_springs [((0:ℤ), newSpring)] 2000 1280 = none ∧
    (∀ (s : SpringMap) (lo hi : ℤ) (px w : ℚ), isRange s lo hi → 8 ∣ hi - lo → lo ≤ hi →
      4 ≤ w → px - w ≤ (hi : ℚ) + 8 → ∃ s', add_more_springs s px w = some s') := by
  constructor
  · have h2 : removeSpring [((0:ℤ), newSpring)] 0 = some [] := by
      simp [removeSpring, lookup_cons']
    have h3 : removeSpring ([] : SpringMap) 8 = none := by simp [removeSpring]
    have h1 : growLeft [((0:ℤ), newSpring)] 0 720 = ([((0:ℤ), newSpring)], 0) := by
      rw [growLeft, if_neg (by norm_num : ¬((720:ℚ) < ((0:ℤ) : ℚ)))]
    have h4 : trimLeft [((0:ℤ), newSpring)] 0 720 = none := by
      rw [trimLeft, if_pos (by norm_num : (((0:ℤ)) : ℚ) < 720)]
      simp only [h2]
      rw [show (0:ℤ) + 8 = 8 from rfl, trimLeft,
        if_pos (by norm_num : (((8:ℤ)) : ℚ) < 720)]
      simp only [h3]
    have hmin : (keys [((0:ℤ), newSpring)]).min? = some 0 := rfl
    have hmax : (keys [((0:ℤ), newSpring)]).max? = some 0 := rfl
    simp only [add_more_springs, hmin, hmax,
      show (2000:ℚ) - 1280 = 720 from by norm_num, h1, h4]
  · intro s lo hi px w h1 h2 h3 h4 h5
    obtain ⟨s', lo', hi', heq, _⟩ := add_more_springs_success s lo hi px w h1 h2 h3 h4 h5
    exact ⟨s', heq⟩

/-- Witness to C8's totality part at the initial state, `px = 0`, `w = 4`. -/
theorem add_more_springs_keyerror_and_total_witness :
    ∃ s', add_more_springs [((0:ℤ), newSpring)] 0 4 = some s' :=
  add_more_springs_keyerror_and_total.2 [((0:ℤ), newSpring)] 0 0 0 4
    (fun k => by simp [keys]; omega) (by omega) (le_refl 0) (by norm_num) (by norm_num)

/-! ### Support lemmas for the flock -/

lemma mag2_smul (c : ℝ) (v : ℝ × ℝ) : mag2 (c • v) = c ^ 2 * mag2 v := by
  obtain ⟨a, b⟩ := v
  simp only [mag2, Prod.smul_mk, smul_eq_mul]
  ring

lemma mag2_clampMagnitude_le (v : ℝ × ℝ) (m : ℝ) (hm : 0 ≤ m) :
    mag2 (clampMagnitude v m) ≤ m ^ 2 := by
  unfold clampMagnitude
  split_ifs with h
  · exact h
  · push_neg at h
    have ht : 0 < mag2 v := lt_of_le_of_lt (sq_nonneg m) h
    rw [mag2_smul, div_pow, Real.sq_sqrt (le_of_lt ht), div_mul_cancel₀ _ (ne_of_gt ht)]

lemma abs_component_le (v : ℝ × ℝ) (m : ℝ) (hm : 0 ≤ m) (h : mag2 v ≤ m ^ 2) :
    |v.1| ≤ m ∧ |v.2| ≤ m := by
  unfold mag2 at h
  constructor <;> apply abs_le_of_sq_le_sq _ hm <;> nlinarith [sq_nonneg v.1, sq_nonneg v.2]

lemma kwb_velocity_bound (b : FishBoid) (m : ℝ) (h1 : |b.velocity.1| ≤ m)
    (h2 : |b.velocity.2| ≤ m) :
    |(keep_within_bounds b).velocity.1| ≤ m + FISH_SIM_TURN_FACTOR ∧
    |(keep_within_bounds b).velocity.2| ≤ m + FISH_SIM_TURN_FACTOR := by
  rw [abs_le] at h1 h2
  simp only [keep_within_bounds, FISH_SIM_TURN_FACTOR]
  split_ifs <;> constructor <;> (rw [abs_le]; constructor <;> (try simp) <;> linarith)

lemma kwb_world_clamp (b : FishBoid) (hw : b.rect.w ≤ WORLD_RIGHT) :
    WORLD_LEFT ≤ (keep_within_bounds b).rect.x ∧
    (keep_within_bounds b).rect.right ≤ WORLD_RIGHT ∧
    (keep_within_bounds b).rect.bottom ≤ WORLD_BOTTOM := by
  simp only [keep_within_bounds, WORLD_LEFT, WORLD_RIGHT, WORLD_BOTTOM, LAYER_HEIGHT,
    Rect.right, Rect.bottom] at hw ⊢
  split_ifs <;> refine ⟨?_, ?_, ?_⟩ <;> simp at * <;> linarith

lemma go_towards_center_rect (self : FishBoid) (boids : List FishBoid) :
    (go_towards_center self boids).rect = self.rect := by
  simp only [go_towards_center]
  split_ifs <;> rfl

lemma avoid_others_rect (self : FishBoid) (boids : List FishBoid) :
    (avoid_others self boids).rect = self.rect := rfl

lemma match_velocity_rect (self : FishBoid) (boids : List FishBoid) :
    (match_velocity self boids).rect = self.rect := by
  simp only [match_velocity]
  split_ifs <;> rfl

lemma avoid_player_rect (self : FishBoid) (player : ℝ × ℝ) :
    (avoid_player self player).rect = self.rect := by
  simp only [avoid_player]
  split_ifs <;> rfl

lemma forcesPhase_rect (self : FishBoid) (boids : List FishBoid) (player : ℝ × ℝ) :
    (forcesPhase self boids player).rect = self.rect := by
  unfold forcesPhase
  rw [avoid_player_rect, match_velocity_rect, avoid_others_rect, go_towards_center_rect]

lemma update_eq (self : FishBoid) (boids : List FishBoid) (player : ℝ × ℝ) :
    FishBoid.update self boids player =
      keep_within_bounds
        { forcesPhase self boids player with
          velocity := clampMagnitude (forcesPhase self boids player).velocity speed_limit,
          rect := { (forcesPhase self boids player).rect with
            x := (forcesPhase self boids player).rect.x +
              (clampMagnitude (forcesPhase self boids player).velocity speed_limit).1,
            y := (forcesPhase self boids player).rect.y +
              (clampMagnitude (forcesPhase self boids player).velocity speed_limit).2 } } := rfl

/-! ### C1 — speed clamp versus boundary nudge -/

/-- A concrete boid used in counterexamples and witnesses: at full speed
`(10, 0)` with its species bounding rect far to its right, so the soft
left-edge turn nudge fires. -/
def cexBoid : FishBoid where
  bid := 0
  rect := ⟨100, 300, 10, 10⟩
  velocity := (10, 0)
  bounds := ⟨1000000, -1000000, 1000000000, 2000000000⟩

/-- A player position far away from `cexBoid` (player avoidance inactive). -/
def cexPlayer : ℝ × ℝ := (100000, 100000)

/-- C1 counterexample: after one full `FishBoid.update` (neighbour list
`[cexBoid]` itself, as `BoidManager.update` passes it), the final velocity is
`(10.9, 0)`: the turn-factor nudge of `keep_within_bounds` happens *after*
the speed clamp, so the end-of-step speed exceeds `speed_limit = 10`. -/
theorem boid_velocity_can_exceed_speed_limit :
    speed_limit ^ 2 < mag2 ((FishBoid.update cexBoid [cexBoid] cexPlayer).velocity) := by
  norm_num [FishBoid.update, forcesPhase, go_towards_center, avoid_others, match_velocity,
    avoid_player, clampMagnitude, keep_within_bounds, cexBoid, cexPlayer, mag2, Rect.center,
    Rect.right, Rect.bottom, speed_limit, FISH_SIM_CENTER_FACTOR, FISH_SIM_AVOID_FACTOR,
    FISH_SIM_MATCH_FACTOR, FISH_SIM_TURN_FACTOR, FISH_SIM_AVOID_PLAYER_FACTOR,
    FISH_SIM_AVOID_DIST, FISH_SIM_AVOID_PLAYER_DIST, WORLD_LEFT, WORLD_RIGHT, WORLD_BOTTOM,
    LAYER_HEIGHT, Prod.smul_mk, smul_eq_mul, Prod.mk_add_mk, Prod.mk_sub_mk]

/-- C1 amended: the speed bound `|velocity| ≤ speed_limit` holds at the
clamp, i.e. for the velocity used to integrate the position; the boundary
handling then runs after the clamp and may add up to one turn factor per
axis, so at the end of the step each velocity component is bounded by
`speed_limit + turn_factor = 10.9` instead. -/
theorem boid_speed_clamped_before_bounds_nudge (self : FishBoid) (boids : List FishBoid)
    (player : ℝ × ℝ) :
    mag2 (clampMagnitude (forcesPhase self boids player).velocity speed_limit) ≤
      speed_limit ^ 2 ∧
    |(FishBoid.update self boids player).velocity.1| ≤ speed_limit + FISH_SIM_TURN_FACTOR ∧
    |(FishBoid.update self boids player).velocity.2| ≤ speed_limit + FISH_SIM_TURN_FACTOR := by
  have hm : (0:ℝ) ≤ speed_limit := by norm_num [speed_limit]
  have hc := mag2_clampMagnitude_le (forcesPhase self boids player).velocity speed_limit hm
  obtain ⟨h1, h2⟩ := abs_component_le _ _ hm hc
  rw [update_eq]
  exact ⟨hc, kwb_velocity_bound _ speed_limit h1 h2⟩

/-! ### C2 — containment: three hard-clamped sides, no top clamp -/

/-- A boid far above the world (negative `y`), otherwise inert. -/
def cexBoidTop : FishBoid where
  bid := 0
  rect := ⟨100, -1000000, 10, 10⟩
  velocity := (0, 0)
  bounds := ⟨50, 200, 14350, 6950⟩

/-- C2 counterexample: a boid with `rect.y = -1000000` keeps that `y` after a
full `FishBoid.update` — `keep_within_bounds` hard-clamps only the left,
right and bottom sides of the world, never the top, so the final position
is not contained in any fixed world rectangle on the top side (it even stays
above its own species bounding rect and above `y = 0`, the waterline and the
top of every world feature). -/
theorem boid_position_top_never_clamped :
    (FishBoid.update cexBoidTop [cexBoidTop] cexPlayer).rect.y = -1000000 ∧
    (FishBoid.update cexBoidTop [cexBoidTop] cexPlayer).rect.y < cexBoidTop.bounds.y ∧
    (FishBoid.update cexBoidTop [cexBoidTop] cexPlayer).rect.y < 0 := by
  norm_num [FishBoid.update, forcesPhase, go_towards_center, avoid_others, match_velocity,
    avoid_player, clampMagnitude, keep_within_bounds, cexBoidTop, cexPlayer, mag2, Rect.center,
    Rect.right, Rect.bottom, speed_limit, FISH_SIM_CENTER_FACTOR, FISH_SIM_AVOID_FACTOR,
    FISH_SIM_MATCH_FACTOR, FISH_SIM_TURN_FACTOR, FISH_SIM_AVOID_PLAYER_FACTOR,
    FISH_SIM_AVOID_DIST, FISH_SIM_AVOID_PLAYER_DIST, WORLD_LEFT, WORLD_RIGHT, WORLD_BOTTOM,
    LAYER_HEIGHT, Prod.smul_mk, smul_eq_mul, Prod.mk_add_mk, Prod.mk_sub_mk]

/-- C2 amended: after every `FishBoid.update` (for any sprite narrower than
the world), the final position satisfies the three hard clamps that the code
performs: `WORLD_LEFT ≤ rect.x`, `rect.right ≤ WORLD_RIGHT` and
`rect.bottom ≤ WORLD_BOTTOM`.  There is no top-side position clamp: the top
is handled only by the soft velocity nudge. -/
theorem boid_world_clamp_three_sides (self : FishBoid) (boids : List FishBoid)
    (player : ℝ × ℝ) (hw : self.rect.w ≤ WORLD_RIGHT) :
    WORLD_LEFT ≤ (FishBoid.update self boids player).rect.x ∧
    (FishBoid.update self boids player).rect.right ≤ WORLD_RIGHT ∧
    (FishBoid.update self boids player).rect.bottom ≤ WORLD_BOTTOM := by
  rw [update_eq]
  apply kwb_world_clamp
  show (forcesPhase self boids player).rect.w ≤ WORLD_RIGHT
  rw [forcesPhase_rect]
  exact hw

/-- Witness to the amended C2 at the concrete boid `cexBoid`. -/
theorem boid_world_clamp_three_sides_witness :
    WORLD_LEFT ≤ (FishBoid.update cexBoid [cexBoid] cexPlayer).rect.x ∧
    (FishBoid.update cexBoid [cexBoid] cexPlayer).rect.right ≤ WORLD_RIGHT ∧
    (FishBoid.update cexBoid [cexBoid] cexPlayer).rect.bottom ≤ WORLD_BOTTOM :=
  boid_world_clamp_three_sides cexBoid [cexBoid] cexPlayer
    (by norm_num [cexBoid, WORLD_RIGHT, LAYER_HEIGHT])

/-! ### C6 — the neighbour list includes the boid itself -/

/-- C6 counterexample: the neighbour list `BoidManager.update` computes for a
boid over its own group contains the boid itself (its squared distance to
itself is `0 < FISH_SIM_VISION_DIST`; the list comprehension has no
`b is not boid` test), contradicting "the boid itself is never a member". -/
theorem neighbour_list_contains_self :
    visionNeighbours cexBoid [cexBoid] = [cexBoid] := by
  norm_num [visionNeighbours, List.filter, mag2, Rect.center, FISH_SIM_VISION_DIST, cexBoid,
    Prod.mk_sub_mk]

/-- C6 amended: the neighbour list consists of all boids of the same species
group — including the boid itself — whose squared distance is below the
vision threshold; so cohesion and alignment average over the boid itself
too, while the separation term (`avoid_others`) explicitly skips the boid
itself; boids of other species are never included (the list is drawn from
the species group only). -/
theorem neighbour_list_characterisation :
    (∀ (boid b : FishBoid) (group : List FishBoid),
        b ∈ visionNeighbours boid group ↔
          b ∈ group ∧ mag2 (b.rect.center - boid.rect.center) < FISH_SIM_VISION_DIST) ∧
    (∀ (boid : FishBoid) (group : List FishBoid),
        boid ∈ group → boid ∈ visionNeighbours boid group) ∧
    (∀ (self other : FishBoid) (l : List FishBoid), other.bid = self.bid →
        avoid_others self (other :: l) = avoid_others self l) := by
  have hmem : ∀ (boid b : FishBoid) (group : List FishBoid),
      b ∈ visionNeighbours boid group ↔
        b ∈ group ∧ mag2 (b.rect.center - boid.rect.center) < FISH_SIM_VISION_DIST := by
    intro boid b group
    simp [visionNeighbours, List.mem_filter]
  refine ⟨hmem, fun boid group hg => ?_, fun self other l hid => ?_⟩
  · rw [hmem]
    refine ⟨hg, ?_⟩
    rw [sub_self]
    norm_num [mag2, FISH_SIM_VISION_DIST, Prod.fst_zero, Prod.snd_zero]
  · unfold avoid_others
    rw [List.foldl_cons, if_pos hid]

/-- Witness to the amended C6: the concrete boid is in its own neighbour
list. -/
theorem neighbour_list_characterisation_witness :
    cexBoid ∈ visionNeighbours cexBoid [cexBoid] :=
  neighbour_list_characterisation.2.1 cexBoid [cexBoid] (by simp)

/-! ### C10 — camera transforms are mutually inverse -/

/-- C10: for every point `p`, camera position and screen size,
`screen_to_world (world_to_screen p) = p` exactly (the transforms
`p - position + screen_size/2` and `q + position - screen_size/2` are
mutually inverse over exact arithmetic). -/
theorem camera_round_trip (position screen_size p : ℚ × ℚ) :
    screen_to_world position screen_size (world_to_screen position screen_size p) = p := by
  obtain ⟨px, py⟩ := p
  obtain ⟨cx, cy⟩ := position
  obtain ⟨sx, sy⟩ := screen_size
  simp only [world_to_screen, screen_to_world, Prod.mk_add_mk, Prod.mk_sub_mk,
    Prod.mk.injEq]
  constructor <;> ring

end FishSim
